import Mathlib

/-!
Verification of the `abbs-update-checksum` core
(`abbs-update-checksum-core/src/lib.rs`) against its natural-language
specification.

The Rust code is shallowly embedded over `List Char` (text) and association
lists (`Ctx`, standing for the `HashMap<String, String>` context).  Network
effects are abstracted as oracle parameters:

* `pypi : List Char → List Char → Option (List Char)` stands for
  `get_pypi_download_url` (package name, version ↦ sdist URL; `none` models
  a resolution failure, i.e. a non-success registry response or a missing
  sdist entry);
* `fetch : List Char → Option (List Char)` stands for `get_sha256`
  (URL ↦ formatted `sha256::<hex>` token; `none` models a fetch failure).

The progress callback of the Rust code only feeds a UI sink and does not
influence any returned value, so it is not modelled.

The `buffer_unordered` concurrency of `update_all_checksum` is modelled by
`collectScatter`, which consumes the task results in an arbitrary completion
order (an arbitrary permutation of the launched tasks' outcomes) and writes
each into its recorded slot, exactly as the Rust loop
`for c in tasks_res { let (checksum, index) = c?; res[index] = ...; }` does.
The sequential function `updateFieldSeq` is proven to agree with this
scattering model for every completion order (theorem for claim C1), and the
whole-map function `update_all_checksum` is built on it.

Rust `panic!`/`unwrap` (which aborts the call without returning an error
value) is modelled as `Option.none` in `patchOne` / `update_spec_inner` and
as `SpecOutcome.panicked` in `get_new_spec`.

Text is a `List Char`; the Rust code indexes by UTF-8 byte offset, which
coincides with the character index on the ASCII recipe texts these fields
hold.  Rust's Unicode-aware `trim` / `to_lowercase` / whitespace splits are
modelled by their ASCII behaviour for the same reason.
-/

/-- Whitespace split, as Rust's `str::split_whitespace` /
`split_ascii_whitespace`: maximal runs of non-whitespace characters, empty
chunks discarded. -/
def splitWSAux : List Char → List Char → List (List Char)
  | [], acc => if acc = [] then [] else [acc.reverse]
  | c :: rest, acc =>
    if c.isWhitespace then
      if acc = [] then splitWSAux rest [] else acc.reverse :: splitWSAux rest []
    else splitWSAux rest (c :: acc)

/-- Whitespace split of a text. -/
def splitWS (s : List Char) : List (List Char) :=
  splitWSAux s []

/-- Substring split, as Rust's `str::split(sep)`: splits on each
non-overlapping occurrence of `sep`, keeping empty chunks.  Structural
recursion on a fuel bound (every step consumes at least one character, so
fuel `s.length` is never exhausted). -/
def splitSepAux (sep : List Char) : Nat → List Char → List Char → List (List Char)
  | _, [], acc => [acc.reverse]
  | 0, c :: rest, acc => [acc.reverse ++ c :: rest]
  | fuel + 1, c :: rest, acc =>
    if sep.isPrefixOf (c :: rest) ∧ sep ≠ [] then
      acc.reverse :: splitSepAux sep fuel (rest.drop (sep.length - 1)) []
    else
      splitSepAux sep fuel rest (c :: acc)

/-- Substring split (Rust `str::split`). -/
def splitOnSep (sep s : List Char) : List (List Char) :=
  splitSepAux sep s.length s []

/-- Rust `str::trim` (leading and trailing whitespace removed). -/
def trimL (s : List Char) : List Char :=
  ((s.dropWhile Char.isWhitespace).reverse.dropWhile Char.isWhitespace).reverse

/-- Rust `str::to_lowercase`. -/
def toLowerL (s : List Char) : List Char :=
  s.map Char.toLower

/-- Rust `str::find`: index of the first occurrence of `pat` in `s`. -/
def findSub : List Char → List Char → Option Nat
  | [], pat => if pat = [] then some 0 else none
  | c :: rest, pat =>
    if pat.isPrefixOf (c :: rest) then some 0
    else (findSub rest pat).map (· + 1)

/-- Rust `str::split_once`: text before / after the first occurrence of
`pat`. -/
def splitOnceSub (s pat : List Char) : Option (List Char × List Char) :=
  match findSub s pat with
  | none => none
  | some i => some (s.take i, s.drop (i + pat.length))

/-- Rust `Vec::join`. -/
def intercalateL (sep : List Char) : List (List Char) → List Char
  | [] => []
  | [x] => x
  | x :: y :: rest => x ++ sep ++ intercalateL sep (y :: rest)

/-- Rust `String::replace_range(a..b, repl)`. -/
def replaceRangeL (s : List Char) (a b : Nat) (repl : List Char) : List Char :=
  s.take a ++ repl ++ s.drop b

/-- `const VCS: &[&str] = &["git", "bzr", "svn", "hg", "bk"];` -/
def vcsNames : List (List Char) :=
  ["git".data, "bzr".data, "svn".data, "hg".data, "bk".data]

/-- Default source type when the token has no `::` segment tag. -/
def tblTag : List Char := "tbl".data

/-- The registry-lookup transport tag. -/
def pypiTag : List Char := "pypi".data

/-- The literal token recorded for VCS entries. -/
def skipTok : List Char := "SKIP".data

/-- Option segment marker `version=`. -/
def versionPre : List Char := "version=".data

/-- The `::` segment separator of the source mini-language. -/
def sep2 : List Char := "::".data

/-- The `__` architecture-suffix separator of field names. -/
def dunder : List Char := "__".data

/-- Single-space join separator used when storing checksum lists in the
context. -/
def spaceSep : List Char := " ".data

/-- Continuation separator written by `update_spec_inner`:
`" \\\n         "` (space, backslash, newline, nine spaces). -/
def contSep : List Char := " \\\n         ".data

/-- Field name `SRCS`. -/
def srcsKey : List Char := "SRCS".data

/-- Field-name family marker `SRCS__`. -/
def srcsPre : List Char := "SRCS__".data

/-- Field name `CHKSUMS`. -/
def chksumsKey : List Char := "CHKSUMS".data

/-- Field-name family marker `CHKSUMS__`. -/
def chksumsPre : List Char := "CHKSUMS__".data

/-- A double quote, the value delimiter searched by `update_spec_inner`. -/
def quoteTok : List Char := ['"']

/-- The `="` written between a field name and its fresh value. -/
def eqQuoteTok : List Char := ['=', '"']

instance [DecidableEq ε] [DecidableEq α] : DecidableEq (Except ε α) := fun x y =>
  match x, y with
  | Except.ok a, Except.ok b =>
    match decEq a b with
    | isTrue h => isTrue (by rw [h])
    | isFalse h => isFalse (by simp [h])
  | Except.ok _, Except.error _ => isFalse (by simp)
  | Except.error _, Except.ok _ => isFalse (by simp)
  | Except.error e, Except.error f =>
    match decEq e f with
    | isTrue h => isTrue (by rw [h])
    | isFalse h => isFalse (by simp [h])

/-- Error outcomes of the core (the Rust code returns untyped `eyre`
reports; these constructors record which failure site produced them). -/
inductive UErr where
  | parseFailed
  | pypiIllegal
  | pypiResolveFailed
  | fetchFailed
deriving DecidableEq, Repr

/-- Classification outcome for one source token: a VCS entry (whose slot is
immediately `SKIP`) or a fetch task for a resolved locator. -/
inductive Slot where
  | skip
  | task (src : List Char)
deriving DecidableEq, Repr

/-- `split.iter().find_map(|x| x.strip_prefix("version="))`. -/
def findVersionOpt (parts : List (List Char)) : Option (List Char) :=
  parts.findSome? (fun x =>
    if versionPre.isPrefixOf x then some (x.drop versionPre.length) else none)

/-- The per-token classification of `update_all_checksum` (lib.rs lines
99–123): split the trimmed token on `::`; the first segment (default `tbl`)
is the source type, the last is the locator; a `pypi` token requires a
`version=` option and resolves through the registry oracle; a VCS-typed
token yields `Slot.skip`, anything else a fetch task. -/
def classify (pypi : List Char → List Char → Option (List Char))
    (c : List Char) : Except UErr Slot :=
  let parts := splitOnSep sep2 (trimL c)
  let srcType := parts.head?.getD tblTag
  let src0 := parts.getLast?.getD []
  let srcE : Except UErr (List Char) :=
    if toLowerL (trimL srcType) = pypiTag then
      match findVersionOpt parts with
      | none => Except.error UErr.pypiIllegal
      | some ver =>
        match pypi src0 ver with
        | none => Except.error UErr.pypiResolveFailed
        | some url => Except.ok url
    else Except.ok src0
  match srcE with
  | Except.error e => Except.error e
  | Except.ok src =>
    if vcsNames.contains (toLowerL (trimL srcType)) then Except.ok Slot.skip
    else Except.ok (Slot.task src)

/-- Whether a token's source type matches a VCS name case-insensitively
(the condition of lib.rs line 115). -/
def vcsToken (c : List Char) : Bool :=
  vcsNames.contains
    (toLowerL (trimL ((splitOnSep sep2 (trimL c)).head?.getD tblTag)))

/-- Error-propagating map over a list, as the Rust
`for`-loop-with-`?` / `collect::<Result<_,_>>` idiom. -/
def mapME (f : α → Except ε β) : List α → Except ε (List β)
  | [] => Except.ok []
  | x :: xs =>
    match f x with
    | Except.error e => Except.error e
    | Except.ok y =>
      match mapME f xs with
      | Except.error e => Except.error e
      | Except.ok ys => Except.ok (y :: ys)

/-- The initial per-field result vector of `update_all_checksum`: `SKIP` at
VCS slots, an empty placeholder (overwritten by the task result) at fetch
slots. -/
def initSlots (cl : List Slot) : List (List Char) :=
  cl.map (fun s => match s with | Slot.skip => skipTok | Slot.task _ => [])

/-- The fetch tasks launched for a classified field, each carrying its
0-based entry position `i` (lib.rs line 119: `get_sha256(..., i)`). -/
def tasksOf (cl : List Slot) : List (Nat × List Char) :=
  cl.enum.filterMap (fun p =>
    match p.2 with | Slot.skip => none | Slot.task src => some (p.1, src))

/-- Each task's outcome under the fetch oracle: a `(checksum, position)`
pair, or a fetch failure. -/
def taskOutcomes (fetch : List Char → Option (List Char)) (cl : List Slot) :
    List (Except UErr (List Char × Nat)) :=
  (tasksOf cl).map (fun t =>
    match fetch t.2 with
    | none => Except.error UErr.fetchFailed
    | some h => Except.ok (h, t.1))

/-- The result-collection loop of `update_all_checksum` (lib.rs lines
130–133): consume task results in completion order, propagate the first
error, write each checksum at its recorded position. -/
def collectScatter (res : List (List Char)) :
    List (Except UErr (List Char × Nat)) → Except UErr (List (List Char))
  | [] => Except.ok res
  | Except.error e :: _ => Except.error e
  | Except.ok p :: rest => collectScatter (res.set p.2 p.1) rest

/-- Pure scatter of `(checksum, position)` pairs into a slot vector. -/
def scatterL (res : List (List Char)) (l : List (List Char × Nat)) :
    List (List Char) :=
  l.foldl (fun r p => r.set p.2 p.1) res

/-- The successful pairs of a completion-ordered outcome list. -/
def okPairs (l : List (Except UErr (List Char × Nat))) :
    List (List Char × Nat) :=
  l.filterMap (fun x =>
    match x with | Except.ok p => some p | Except.error _ => none)

/-- One field of `update_all_checksum` with an explicit completion order
`completed` for the launched tasks: classify all tokens, then scatter the
completed results into the slot vector. -/
def runField (pypi : List Char → List Char → Option (List Char))
    (completed : List (Except UErr (List Char × Nat))) (v : List Char) :
    Except UErr (List (List Char)) :=
  match mapME (classify pypi) (splitWS v) with
  | Except.error e => Except.error e
  | Except.ok cl => collectScatter (initSlots cl) completed

/-- Resolution of one classified slot: `SKIP` for VCS entries, the fetched
checksum token otherwise. -/
def resolveSlot (fetch : List Char → Option (List Char)) :
    Slot → Except UErr (List Char)
  | Slot.skip => Except.ok skipTok
  | Slot.task src =>
    match fetch src with
    | none => Except.error UErr.fetchFailed
    | some h => Except.ok h

/-- One field of `update_all_checksum`, sequential form: position `i` of the
result is the resolution of token `i`.  Proven (claim C1) to agree with
`runField` under every completion order. -/
def updateFieldSeq (pypi : List Char → List Char → Option (List Char))
    (fetch : List Char → Option (List Char)) (v : List Char) :
    Except UErr (List (List Char)) :=
  mapME (fun c =>
    match classify pypi c with
    | Except.error e => Except.error e
    | Except.ok s => resolveSlot fetch s) (splitWS v)

/-- The context map (`HashMap<String, String>`), as an association list with
pairwise-distinct keys. -/
abbrev Ctx := List (List Char × List Char)

/-- `HashMap::get`. -/
def lookupCtx : Ctx → List Char → Option (List Char)
  | [], _ => none
  | kv :: rest, k => if kv.1 = k then some kv.2 else lookupCtx rest k

/-- `HashMap::insert` (insert or overwrite). -/
def insertCtx (ctx : Ctx) (k v : List Char) : Ctx :=
  (k, v) :: ctx.filter (fun kv => ¬ (kv.1 = k))

/-- The field filter of lib.rs line 89: `k == "SRCS" ||
k.starts_with("SRCS__")`. -/
def isSrcKey (k : List Char) : Bool :=
  k = srcsKey || srcsPre.isPrefixOf k

/-- The field filter of lib.rs line 235: `k == "CHKSUMS" ||
k.starts_with("CHKSUMS__")`. -/
def isChksumKey (k : List Char) : Bool :=
  k = chksumsKey || chksumsPre.isPrefixOf k

/-- The output-field name for a source field (lib.rs lines 139–146):
`CHKSUMS__<arch>` when the source key splits on `__`, else `CHKSUMS`. -/
def chksumKey (k : List Char) : List Char :=
  match splitOnceSub k dunder with
  | some pr => chksumsPre ++ pr.2
  | none => chksumsKey

/-- Equality of the two `HashSet<Cow<str>>` values compared at lib.rs lines
148–155 (extensional set equality as mutual inclusion). -/
def sameSet (a b : List (List Char)) : Bool :=
  a.all (fun x => b.contains x) && b.all (fun x => a.contains x)

/-- The per-field change test of lib.rs lines 148–157:
`context.get(&key).is_none_or(|old| set(old.trim().split_ascii_whitespace())
!= set(checksums))`. -/
def fieldTrigger (ctx : Ctx) (key : List Char) (cs : List (List Char)) :
    Bool :=
  match lookupCtx ctx key with
  | none => true
  | some old => ! sameSet (splitWS (trimL old)) cs

/-- The write-back loop of lib.rs lines 138–160: for each computed field,
raise the changed flag if the stored set differs (or the output field is
absent), then insert the space-joined value. -/
def applyResults (acc : Ctx × Bool) :
    List (List Char × List (List Char)) → Ctx × Bool
  | [] => acc
  | r :: rest =>
    applyResults
      (insertCtx acc.1 (chksumKey r.1) (intercalateL spaceSep r.2),
        acc.2 || fieldTrigger acc.1 (chksumKey r.1) r.2) rest

/-- `update_all_checksum` (lib.rs lines 75–163): process every
`SRCS`/`SRCS__*` field, then write the checksum fields back, computing the
changed flag.  The arbitrary `HashMap` iteration order is modelled by the
context's list order; per-field results are completion-order-independent
(claim C1), and the written keys are pairwise distinct, so no returned
value depends on this choice. -/
def update_all_checksum (pypi : List Char → List Char → Option (List Char))
    (fetch : List Char → Option (List Char)) (ctx : Ctx) :
    Except UErr (Ctx × Bool) :=
  match mapME (fun kv =>
      match updateFieldSeq pypi fetch kv.2 with
      | Except.error e => Except.error e
      | Except.ok cs => Except.ok (kv.1, cs))
      (ctx.filter (fun kv => isSrcKey kv.1)) with
  | Except.error e => Except.error e
  | Except.ok results => Except.ok (applyResults (ctx, false) results)

/-- The naive fallback parse of lib.rs lines 63–68: split lines, split each
at the first `=`, strip every double quote from the value. -/
def fallbackParse (s : List Char) : Ctx :=
  (splitOnSep ['\n'] s).foldl (fun c line =>
    match splitOnceSub line ['='] with
    | some nv => insertCtx c nv.1 (nv.2.filter (fun ch => ¬ (ch = '"')))
    | none => c) []

/-- `parse_from_str` (lib.rs lines 52–73).  The external structured parser
`abbs_meta_apml::parse` is an oracle `apml`; on its failure the fallback is
used only when `allowFallback` is set, otherwise the parse errors are
returned.  (The Rust parser may leave a partially filled map behind when it
errors, which the fallback then extends; the model's fallback branch starts
from the fallback parse alone — only the `allowFallback = false` path, the
one the public entry points take, is load-bearing here.) -/
def parse_from_str (apml : List Char → Except Unit Ctx) (s : List Char)
    (allowFallback : Bool) : Except UErr Ctx :=
  match apml s with
  | Except.ok c => Except.ok c
  | Except.error _ =>
    if allowFallback then Except.ok (fallbackParse s)
    else Except.error UErr.parseFailed

/-- The value returned by `update_from_str`. -/
structure UpdateResult where
  changed : Bool
  result : List (List Char × List (List Char))
deriving DecidableEq, Repr

/-- `update_from_str` (lib.rs lines 223–249): parse with the fallback
disabled, run `update_all_checksum`, and return the changed flag together
with every `CHKSUMS`/`CHKSUMS__*` field of the updated context,
whitespace-split.  (The construction of the HTTP client, which can fail for
environment reasons only, is not modelled — the client lives inside the
fetch oracles.) -/
def update_from_str (apml : List Char → Except Unit Ctx)
    (pypi : List Char → List Char → Option (List Char))
    (fetch : List Char → Option (List Char)) (s : List Char) :
    Except UErr UpdateResult :=
  match parse_from_str apml s false with
  | Except.error e => Except.error e
  | Except.ok ctx =>
    match update_all_checksum pypi fetch ctx with
    | Except.error e => Except.error e
    | Except.ok cb =>
      Except.ok
        ⟨cb.2,
          (cb.1.filter (fun kv => isChksumKey kv.1)).map
            (fun kv => (kv.1, splitWS kv.2))⟩

/-- One field replacement of `update_spec_inner` (lib.rs lines 265–281):
locate the first occurrence of the field name, the first `"` after it, the
next `"` after that, and replace the whole span with
`k="tok1 \<newline>         tok2 ..."`.  Each failing `find` is an
`unwrap` panic in the Rust code, modelled as `none`. -/
def patchOne (s k : List Char) (v : List (List Char)) : Option (List Char) :=
  match findSub s k with
  | none => none
  | some start =>
    match findSub (s.drop start) quoteTok with
    | none => none
    | some sd =>
      match findSub ((s.drop start).drop (sd + 1)) quoteTok with
      | none => none
      | some ed =>
        some (replaceRangeL s start (start + sd + ed + 2)
          (k ++ eqQuoteTok ++ intercalateL contSep v ++ quoteTok))

/-- `update_spec_inner` (lib.rs lines 264–283): apply every field
replacement in turn on the mutated text; `none` models a panic.  The
arbitrary `HashMap` iteration order is modelled by the list order. -/
def update_spec_inner (news : List (List Char × List (List Char)))
    (s : List Char) : Option (List Char) :=
  match news with
  | [] => some s
  | r :: rest =>
    match patchOne s r.1 r.2 with
    | none => none
    | some s' => update_spec_inner rest s'

/-- Outcome of `get_new_spec`: a Rust panic, a returned error, or the
rewritten text with the changed flag. -/
inductive SpecOutcome where
  | panicked
  | failed (e : UErr)
  | updated (text : List Char) (changed : Bool)
deriving DecidableEq, Repr

/-- `get_new_spec` (lib.rs lines 251–262): run `update_from_str` on the
text, then rewrite every checksum field of the result map in place —
unconditionally, whether or not anything changed. -/
def get_new_spec (apml : List Char → Except Unit Ctx)
    (pypi : List Char → List Char → Option (List Char))
    (fetch : List Char → Option (List Char)) (s : List Char) : SpecOutcome :=
  match update_from_str apml pypi fetch s with
  | Except.error e => SpecOutcome.failed e
  | Except.ok r =>
    match update_spec_inner r.result s with
    | none => SpecOutcome.panicked
    | some t => SpecOutcome.updated t r.changed

/-- Removal of backslash-newline pairs (shell line continuation inside a
quoted value). -/
def dropBackNl : List Char → List Char
  | '\\' :: '\n' :: rest => dropBackNl rest
  | c :: rest => c :: dropBackNl rest
  | [] => []

/-- Fuel-driven statement scanner for `apmlModel`. -/
def apmlAux : Nat → List Char → Ctx → Option Ctx
  | _, [], ctx => some ctx
  | 0, _ :: _, _ => none
  | fuel + 1, c :: rest, ctx =>
    if c = '\n' then apmlAux fuel rest ctx
    else
      let name := (c :: rest).takeWhile (fun ch => !(ch == '=' || ch == '\n'))
      match (c :: rest).drop name.length with
      | '=' :: '"' :: valrest =>
        match findSub valrest quoteTok with
        | none => none
        | some i =>
          apmlAux fuel (valrest.drop (i + 1))
            (insertCtx ctx name (dropBackNl (valrest.take i)))
      | '=' :: valrest =>
        let value := valrest.takeWhile (fun ch => !(ch == '\n'))
        apmlAux fuel (valrest.drop value.length) (insertCtx ctx name value)
      | _ => none

/-- Modelled from the spec: the external recipe parser
(`abbs_meta_apml::parse`, not part of this repository) that builds the
field-name → raw-value context consumed by the core.  Per the spec's
interface section, a field is `NAME=<value>` or `NAME="<value>"`, a quoted
value may continue across lines via trailing backslashes (the
backslash-newline pair is not part of the value), and the parser either
yields the whole map or fails. -/
def apmlModel (s : List Char) : Except Unit Ctx :=
  match apmlAux (s.length + 1) s [] with
  | none => Except.error ()
  | some ctx => Except.ok ctx

/-! ### Basic lemmas about `mapME` -/

theorem mapME_ok_forall₂ {f : α → Except ε β} :
    ∀ {l : List α} {l' : List β}, mapME f l = Except.ok l' →
      List.Forall₂ (fun a b => f a = Except.ok b) l l' := by
  intro l
  induction l with
  | nil =>
    intro l' h
    simp only [mapME] at h
    cases h
    exact List.Forall₂.nil
  | cons x xs ih =>
    intro l' h
    simp only [mapME] at h
    cases hx : f x with
    | error e => rw [hx] at h; cases h
    | ok y =>
      rw [hx] at h
      cases hxs : mapME f xs with
      | error e => rw [hxs] at h; cases h
      | ok ys =>
        rw [hxs] at h
        cases h
        exact List.Forall₂.cons hx (ih hxs)

theorem forall₂_mapME {f : α → Except ε β} :
    ∀ {l : List α} {l' : List β},
      List.Forall₂ (fun a b => f a = Except.ok b) l l' →
      mapME f l = Except.ok l' := by
  intro l l' h
  induction h with
  | nil => rfl
  | cons hx _ ih => simp only [mapME, hx, ih]

theorem mapME_error_of_mem {f : α → Except ε β} {x : α} {e : ε} :
    ∀ {l : List α}, x ∈ l → f x = Except.error e →
      ∃ e', mapME f l = Except.error e' := by
  intro l
  induction l with
  | nil => intro h; cases h
  | cons y ys ih =>
    intro hmem hfx
    rcases List.mem_cons.mp hmem with h | h
    · subst h
      exact ⟨e, by simp only [mapME, hfx]⟩
    · cases hy : f y with
      | error e' => exact ⟨e', by simp only [mapME, hy]⟩
      | ok b =>
        obtain ⟨e', he'⟩ := ih h hfx
        exact ⟨e', by simp only [mapME, hy, he']⟩

theorem forall₂_getElem? {R : α → β → Prop} :
    ∀ {l : List α} {l' : List β}, List.Forall₂ R l l' →
      ∀ {i : Nat} {a : α}, l[i]? = some a →
        ∃ b, l'[i]? = some b ∧ R a b := by
  intro l l' h
  induction h with
  | nil => intro i a ha; simp at ha
  | cons hx hxs ih =>
    intro i a ha
    cases i with
    | zero => simp at ha; subst ha; exact ⟨_, by simp, hx⟩
    | succ n =>
      simp only [List.getElem?_cons_succ] at ha ⊢
      exact ih ha

theorem forall₂_of_getElem? {R : α → β → Prop} :
    ∀ {l : List α} {l' : List β}, l.length = l'.length →
      (∀ (i : Nat) (a : α) (b : β), l[i]? = some a → l'[i]? = some b → R a b) →
      List.Forall₂ R l l' := by
  intro l
  induction l with
  | nil =>
    intro l' hlen _
    cases l' with
    | nil => exact List.Forall₂.nil
    | cons y ys => simp at hlen
  | cons x xs ih =>
    intro l' hlen hR
    cases l' with
    | nil => simp at hlen
    | cons y ys =>
      refine List.Forall₂.cons (hR 0 x y (by simp) (by simp)) ?_
      refine ih (by simpa using hlen) ?_
      intro i a b ha hb
      exact hR (i + 1) a b (by simpa using ha) (by simpa using hb)

/-! ### Lemmas about the scatter model of `buffer_unordered` collection -/

theorem collectScatter_ok_mem :
    ∀ {l : List (Except UErr (List Char × Nat))} {r out : List (List Char)},
      collectScatter r l = Except.ok out →
      ∀ x ∈ l, ∃ p, x = Except.ok p := by
  intro l
  induction l with
  | nil => intro res out _ x hx; cases hx
  | cons y ys ih =>
    intro res out h x hx
    cases y with
    | error e =>
      simp only [collectScatter] at h
      cases h
    | ok p =>
      rcases List.mem_cons.mp hx with hh | hh
      · exact ⟨p, hh⟩
      · exact ih (r := res.set p.2 p.1) h x hh

theorem scatterL_cons (res : List (List Char)) (p : List Char × Nat)
    (l : List (List Char × Nat)) :
    scatterL res (p :: l) = scatterL (res.set p.2 p.1) l := rfl

theorem collectScatter_eq_scatter :
    ∀ {l : List (Except UErr (List Char × Nat))} {r : List (List Char)},
      (∀ x ∈ l, ∃ p, x = Except.ok p) →
      collectScatter r l = Except.ok (scatterL r (okPairs l)) := by
  intro l
  induction l with
  | nil => intro res _; rfl
  | cons y ys ih =>
    intro res hall
    obtain ⟨p, hp⟩ := hall y (List.mem_cons_self y ys)
    subst hp
    rw [show okPairs (Except.ok p :: ys) = p :: okPairs ys from
      List.filterMap_cons_some rfl]
    simp only [collectScatter, scatterL_cons]
    exact ih (fun x hx => hall x (List.mem_cons_of_mem _ hx))

theorem length_scatterL :
    ∀ {l : List (List Char × Nat)} {res : List (List Char)},
      (scatterL res l).length = res.length := by
  intro l
  induction l with
  | nil => intro res; rfl
  | cons p ps ih =>
    intro res
    rw [scatterL_cons, ih, List.length_set]

theorem scatterL_getElem?_not_mem :
    ∀ {l : List (List Char × Nat)} {res : List (List Char)} {j : Nat},
      (∀ p ∈ l, p.2 ≠ j) → (scatterL res l)[j]? = res[j]? := by
  intro l
  induction l with
  | nil => intro res j _; rfl
  | cons p ps ih =>
    intro res j hne
    rw [scatterL_cons, ih (fun q hq => hne q (List.mem_cons_of_mem _ hq)),
      List.getElem?_set_ne (hne p (List.mem_cons_self p ps))]

theorem scatterL_getElem?_mem :
    ∀ {l : List (List Char × Nat)} {res : List (List Char)} {c : List Char}
      {j : Nat}, (l.map Prod.snd).Nodup → (c, j) ∈ l → j < res.length →
      (scatterL res l)[j]? = some c := by
  intro l
  induction l with
  | nil => intro res c j _ hm; intro _; cases hm
  | cons p ps ih =>
    intro res c j hnd hm hj
    rw [List.map_cons, List.nodup_cons] at hnd
    rcases List.mem_cons.mp hm with hh | hh
    · have hp2 : p.2 = j := by rw [← hh]
      have hp1 : p.1 = c := by rw [← hh]
      have hne : ∀ q ∈ ps, q.2 ≠ j := by
        intro q hq hqj
        apply hnd.1
        rw [hp2, ← hqj]
        exact List.mem_map_of_mem Prod.snd hq
      rw [scatterL_cons, hp2, hp1, scatterL_getElem?_not_mem hne]
      exact List.getElem?_set_eq_of_lt c hj
    · exact ih hnd.2 hh (by simpa using hj)

theorem okPairs_cons_ok (p : List Char × Nat)
    (l : List (Except UErr (List Char × Nat))) :
    okPairs (Except.ok p :: l) = p :: okPairs l :=
  List.filterMap_cons_some rfl

theorem okPairs_cons_error (e : UErr)
    (l : List (Except UErr (List Char × Nat))) :
    okPairs (Except.error e :: l) = okPairs l :=
  List.filterMap_cons_none rfl

theorem mem_okPairs {l : List (Except UErr (List Char × Nat))}
    {p : List Char × Nat} : p ∈ okPairs l ↔ Except.ok p ∈ l := by
  simp only [okPairs, List.mem_filterMap]
  constructor
  · rintro ⟨x, hx, hxp⟩
    cases x with
    | error e => simp at hxp
    | ok q => simp at hxp; subst hxp; exact hx
  · intro h
    exact ⟨Except.ok p, h, rfl⟩

/-! ### Lemmas about the launched tasks of a classified field -/

theorem mem_tasksOf {cl : List Slot} {j : Nat} {src : List Char} :
    (j, src) ∈ tasksOf cl ↔ cl[j]? = some (Slot.task src) := by
  simp only [tasksOf, List.mem_filterMap]
  constructor
  · rintro ⟨⟨i, s⟩, hmem, hg⟩
    cases s with
    | skip => simp at hg
    | task src' =>
      simp only [Option.some.injEq, Prod.mk.injEq] at hg
      obtain ⟨rfl, rfl⟩ := hg
      exact List.mk_mem_enum_iff_getElem?.mp hmem
  · intro h
    exact ⟨(j, Slot.task src), List.mk_mem_enum_iff_getElem?.mpr h, rfl⟩

theorem pairwise_fst_lt_enumFrom (l : List α) :
    ∀ n : Nat, List.Pairwise (fun a b => a.1 < b.1) (List.enumFrom n l) := by
  induction l with
  | nil => intro n; exact List.Pairwise.nil
  | cons x xs ih =>
    intro n
    refine List.Pairwise.cons ?_ (ih (n + 1))
    intro y hy
    have := List.le_fst_of_mem_enumFrom hy
    omega

theorem pairwise_filterMap_of {R : α → α → Prop} {S : β → β → Prop}
    (g : α → Option β)
    (hg : ∀ a b x y, R a b → g a = some x → g b = some y → S x y) :
    ∀ {l : List α}, List.Pairwise R l → List.Pairwise S (l.filterMap g) := by
  intro l hl
  induction hl with
  | nil => exact List.Pairwise.nil
  | @cons a l' ha _ ih =>
    cases hga : g a with
    | none => rw [List.filterMap_cons_none hga]; exact ih
    | some b =>
      rw [List.filterMap_cons_some hga]
      refine List.Pairwise.cons ?_ ih
      intro y hy
      obtain ⟨c, hc, hgc⟩ := List.mem_filterMap.mp hy
      exact hg a c b y (ha c hc) hga hgc

theorem tasksOf_fst_pairwise (cl : List Slot) :
    List.Pairwise (fun a b => a.1 < b.1) (tasksOf cl) := by
  refine pairwise_filterMap_of _ ?_ (pairwise_fst_lt_enumFrom cl 0)
  rintro ⟨i, s⟩ ⟨i', s'⟩ x y hR hx hy
  cases s with
  | skip => simp at hx
  | task src =>
    cases s' with
    | skip => simp at hy
    | task src' =>
      simp only [Option.some.injEq] at hx hy
      subst hx; subst hy
      exact hR

theorem tasksOf_fst_nodup (cl : List Slot) :
    ((tasksOf cl).map Prod.fst).Nodup := by
  have h1 : List.Pairwise (fun a b : Nat => a < b) ((tasksOf cl).map Prod.fst) :=
    List.Pairwise.map Prod.fst (fun a b h => h) (tasksOf_fst_pairwise cl)
  exact h1.imp (fun h => Nat.ne_of_lt h)

theorem okPairs_taskOutcomes_snd
    {fetch : List Char → Option (List Char)} :
    ∀ {ts : List (Nat × List Char)},
      (∀ t ∈ ts, ∃ h, fetch t.2 = some h) →
      (okPairs (ts.map (fun t =>
        match fetch t.2 with
        | none => Except.error UErr.fetchFailed
        | some h => Except.ok (h, t.1)))).map Prod.snd = ts.map Prod.fst := by
  intro ts
  induction ts with
  | nil => intro _; rfl
  | cons t ts' ih =>
    intro hall
    obtain ⟨h, hh⟩ := hall t (List.mem_cons_self t ts')
    simp only [List.map_cons, hh, okPairs_cons_ok]
    rw [ih (fun q hq => hall q (List.mem_cons_of_mem _ hq))]

theorem mem_okPairs_taskOutcomes {fetch : List Char → Option (List Char)}
    {cl : List Slot} {c : List Char} {j : Nat} :
    (c, j) ∈ okPairs (taskOutcomes fetch cl) ↔
      ∃ src, (j, src) ∈ tasksOf cl ∧ fetch src = some c := by
  rw [mem_okPairs]
  simp only [taskOutcomes, List.mem_map]
  constructor
  · rintro ⟨⟨i, src⟩, hmem, hout⟩
    cases hf : fetch src with
    | none => rw [hf] at hout; cases hout
    | some h =>
      rw [hf] at hout
      simp only [Except.ok.injEq, Prod.mk.injEq] at hout
      obtain ⟨rfl, rfl⟩ := hout
      exact ⟨src, hmem, hf⟩
  · rintro ⟨src, hmem, hf⟩
    exact ⟨(j, src), hmem, by rw [hf]⟩

/-! ### Classification vs. the VCS predicate -/

theorem classify_ok_skip {pypi : List Char → List Char → Option (List Char)}
    {c : List Char} {s : Slot} (h : classify pypi c = Except.ok s) :
    s = Slot.skip ↔ vcsToken c = true := by
  simp only [classify] at h
  simp only [vcsToken]
  split at h
  · cases h
  · split at h
    · cases h
      simp_all
    · cases h
      simp_all

theorem vcsToken_classify {pypi : List Char → List Char → Option (List Char)}
    {c : List Char} (h : vcsToken c = true) :
    classify pypi c = Except.ok Slot.skip := by
  simp only [vcsToken] at h
  simp only [classify]
  by_cases hp :
      toLowerL (trimL ((splitOnSep sep2 (trimL c)).head?.getD tblTag)) = pypiTag
  · rw [hp] at h
    exact absurd h (by decide)
  · simp only [hp, if_false, h, if_true]

/-- C1: for every source field and every completion order of the concurrent
fetch workers (`completed` ranges over all permutations of the launched
tasks' outcomes), the reassembled checksum list has exactly the length of
the field's whitespace-split token list; every token whose transport
segment case-insensitively matches a VCS name carries `SKIP` at its own
position and is never overwritten by a fetch result; every non-VCS token
carries its fetched checksum at its own position; and the result always
equals the sequential `updateFieldSeq`. -/
theorem c1_positional_reassembly
    (pypi : List Char → List Char → Option (List Char))
    (fetch : List Char → Option (List Char)) (v : List Char)
    (cl : List Slot) (completed : List (Except UErr (List Char × Nat)))
    (out : List (List Char))
    (hcl : mapME (classify pypi) (splitWS v) = Except.ok cl)
    (hperm : List.Perm completed (taskOutcomes fetch cl))
    (hok : collectScatter (initSlots cl) completed = Except.ok out) :
    runField pypi completed v = Except.ok out ∧
    updateFieldSeq pypi fetch v = Except.ok out ∧
    out.length = (splitWS v).length ∧
    ∀ (j : Nat) (tok : List Char), (splitWS v)[j]? = some tok →
      (vcsToken tok = true → out[j]? = some skipTok) ∧
      (vcsToken tok = false →
        ∃ src h, classify pypi tok = Except.ok (Slot.task src) ∧
          fetch src = some h ∧ out[j]? = some h) := by
  have hall : ∀ x ∈ completed, ∃ p, x = Except.ok p :=
    collectScatter_ok_mem hok
  have hfetch : ∀ (j : Nat) (src : List Char),
      cl[j]? = some (Slot.task src) → ∃ h, fetch src = some h := by
    intro j src hj
    have hmem : (j, src) ∈ tasksOf cl := mem_tasksOf.mpr hj
    cases hf : fetch src with
    | some h => exact ⟨h, rfl⟩
    | none =>
      have herr : (Except.error UErr.fetchFailed :
          Except UErr (List Char × Nat)) ∈ taskOutcomes fetch cl := by
        simp only [taskOutcomes, List.mem_map]
        exact ⟨(j, src), hmem, by rw [hf]⟩
      obtain ⟨p, hp⟩ := hall _ (hperm.mem_iff.mpr herr)
      cases hp
  have hout : out = scatterL (initSlots cl) (okPairs completed) := by
    have h2 := collectScatter_eq_scatter (r := initSlots cl) hall
    rw [hok] at h2
    cases h2
    rfl
  have hpermok :
      List.Perm (okPairs completed) (okPairs (taskOutcomes fetch cl)) :=
    hperm.filterMap _
  have hsnd : (okPairs (taskOutcomes fetch cl)).map Prod.snd =
      (tasksOf cl).map Prod.fst := by
    apply okPairs_taskOutcomes_snd
    intro t ht
    obtain ⟨j, src⟩ := t
    exact hfetch j src (mem_tasksOf.mp ht)
  have hnd : ((okPairs completed).map Prod.snd).Nodup := by
    have h3 := tasksOf_fst_nodup cl
    rw [← hsnd] at h3
    exact h3.perm ((hpermok.map Prod.snd).symm)
  have hmemiff : ∀ (c : List Char) (j : Nat), (c, j) ∈ okPairs completed ↔
      ∃ src, (j, src) ∈ tasksOf cl ∧ fetch src = some c := by
    intro c j
    rw [hpermok.mem_iff, mem_okPairs_taskOutcomes]
  have hf2 : List.Forall₂ (fun a b => classify pypi a = Except.ok b)
      (splitWS v) cl := mapME_ok_forall₂ hcl
  have hlen_cl : (splitWS v).length = cl.length := hf2.length_eq
  have hlen : out.length = (splitWS v).length := by
    rw [hout, length_scatterL]
    simp only [initSlots, List.length_map]
    omega
  have hpos : ∀ (j : Nat) (tok : List Char), (splitWS v)[j]? = some tok →
      (vcsToken tok = true → out[j]? = some skipTok) ∧
      (vcsToken tok = false →
        ∃ src h, classify pypi tok = Except.ok (Slot.task src) ∧
          fetch src = some h ∧ out[j]? = some h) := by
    intro j tok hj
    obtain ⟨slot, hslot, hcls⟩ := forall₂_getElem? hf2 hj
    constructor
    · intro hv
      have hskip : slot = Slot.skip := (classify_ok_skip hcls).mpr hv
      subst hskip
      have hne : ∀ p ∈ okPairs completed, p.2 ≠ j := by
        rintro ⟨c, j'⟩ hp hpj
        simp only at hpj
        subst hpj
        obtain ⟨src, hts, _⟩ := (hmemiff c j').mp hp
        rw [mem_tasksOf] at hts
        simp [hslot] at hts
      rw [hout, scatterL_getElem?_not_mem hne]
      simp [initSlots, List.getElem?_map, hslot]
    · intro hv
      have hslot' : ∃ src, slot = Slot.task src := by
        cases slot with
        | skip => exact absurd ((classify_ok_skip hcls).mp rfl) (by simp [hv])
        | task src => exact ⟨src, rfl⟩
      obtain ⟨src, rfl⟩ := hslot'
      obtain ⟨h, hf⟩ := hfetch j src hslot
      refine ⟨src, h, hcls, hf, ?_⟩
      have hmem : (h, j) ∈ okPairs completed :=
        (hmemiff h j).mpr ⟨src, mem_tasksOf.mpr hslot, hf⟩
      rw [hout]
      refine scatterL_getElem?_mem hnd hmem ?_
      rw [initSlots, List.length_map]
      obtain ⟨hlt, _⟩ := List.getElem?_eq_some.mp hslot
      exact hlt
  refine ⟨?_, ?_, hlen, hpos⟩
  · simp only [runField, hcl]
    exact hok
  · apply forall₂_mapME
    refine forall₂_of_getElem? hlen.symm ?_
    intro i a b ha hb
    have hp := hpos i a ha
    cases hvc : vcsToken a with
    | true =>
      have h1 := hp.1 hvc
      rw [hb] at h1
      cases h1
      rw [vcsToken_classify hvc]
      rfl
    | false =>
      obtain ⟨src, h, hcls, hf, houti⟩ := hp.2 hvc
      rw [hb] at houti
      cases houti
      rw [hcls]
      simp only [resolveSlot, hf]

/-- Oracle instances for the C1 witness: no registry lookups, and a fetch
oracle prepending a marker character. -/
def pypiW : List Char → List Char → Option (List Char) := fun _ _ => none

/-- Fetch oracle for the C1 witness. -/
def fetchW : List Char → Option (List Char) := fun s => some ('h' :: s)

/-- Source field of the C1 witness: one VCS entry and two fetch entries. -/
def vW : List Char := "git::a tbl::b https://c".data

/-- Classified slots of `vW`. -/
def clW : List Slot :=
  [Slot.skip, Slot.task ("b".data), Slot.task ("https://c".data)]

/-- Workers of `vW` completing in reverse launch order. -/
def completedW : List (Except UErr (List Char × Nat)) :=
  (taskOutcomes fetchW clW).reverse

/-- Expected reassembled checksum list for `vW`. -/
def outW : List (List Char) :=
  [skipTok, 'h' :: "b".data, 'h' :: "https://c".data]

/-- Witness for C1 at a concrete field whose workers complete in reverse
order. -/
theorem c1_positional_reassembly_witness :
    runField pypiW completedW vW = Except.ok outW ∧
    updateFieldSeq pypiW fetchW vW = Except.ok outW ∧
    outW.length = (splitWS vW).length ∧
    ∀ (j : Nat) (tok : List Char), (splitWS vW)[j]? = some tok →
      (vcsToken tok = true → outW[j]? = some skipTok) ∧
      (vcsToken tok = false →
        ∃ src h, classify pypiW tok = Except.ok (Slot.task src) ∧
          fetchW src = some h ∧ outW[j]? = some h) :=
  c1_positional_reassembly pypiW fetchW vW clW completedW outW rfl
    (List.reverse_perm _) rfl

/-! ### Lemmas about the context map -/

theorem lookupCtx_insert_self (ctx : Ctx) (k v : List Char) :
    lookupCtx (insertCtx ctx k v) k = some v := by
  simp [insertCtx, lookupCtx]

theorem lookupCtx_filter_ne {k k' : List Char} (h : k' ≠ k) :
    ∀ {ctx : Ctx},
      lookupCtx (ctx.filter (fun kv => ¬ (kv.1 = k))) k' = lookupCtx ctx k' := by
  intro ctx
  induction ctx with
  | nil => rfl
  | cons kv rest ih =>
    by_cases hk : kv.1 = k
    · rw [List.filter_cons_of_neg (by simp [hk])]
      rw [ih]
      simp only [lookupCtx]
      rw [if_neg (by rw [hk]; exact fun hh => h hh.symm)]
    · rw [List.filter_cons_of_pos (by simp [hk])]
      simp only [lookupCtx]
      by_cases hk' : kv.1 = k'
      · rw [if_pos hk', if_pos hk']
      · rw [if_neg hk', if_neg hk', ih]

theorem lookupCtx_insert_ne {ctx : Ctx} {k v k' : List Char} (h : k' ≠ k) :
    lookupCtx (insertCtx ctx k v) k' = lookupCtx ctx k' := by
  simp only [insertCtx, lookupCtx]
  rw [if_neg (fun hh => h hh.symm), lookupCtx_filter_ne h]

theorem lookupCtx_mem {v : List Char} :
    ∀ {ctx : Ctx} {k : List Char}, lookupCtx ctx k = some v → (k, v) ∈ ctx := by
  intro ctx
  induction ctx with
  | nil => intro k h; cases h
  | cons kv rest ih =>
    intro k h
    simp only [lookupCtx] at h
    split at h
    · cases h
      rename_i heq
      rw [← heq]
      exact List.mem_cons_self kv rest
    · exact List.mem_cons_of_mem kv (ih h)

/-! ### The `SRCS` / `CHKSUMS` key correspondence -/

theorem findSub_cons_of_not (c : Char) (s pat : List Char)
    (h : pat.isPrefixOf (c :: s) = false) :
    findSub (c :: s) pat = (findSub s pat).map (· + 1) := by
  simp [findSub, h]

theorem findSub_cons_of {c : Char} {s pat : List Char}
    (h : pat.isPrefixOf (c :: s) = true) : findSub (c :: s) pat = some 0 := by
  simp [findSub, h]

theorem findSub_srcsPre (t : List Char) : findSub (srcsPre ++ t) dunder = some 4 := by
  have h1 : dunder.isPrefixOf ('S' :: 'R' :: 'C' :: 'S' :: '_' :: '_' :: t) = false := rfl
  have h2 : dunder.isPrefixOf ('R' :: 'C' :: 'S' :: '_' :: '_' :: t) = false := rfl
  have h3 : dunder.isPrefixOf ('C' :: 'S' :: '_' :: '_' :: t) = false := rfl
  have h4 : dunder.isPrefixOf ('S' :: '_' :: '_' :: t) = false := rfl
  have h5 : dunder.isPrefixOf ('_' :: '_' :: t) = true := by
    simp [dunder]
  show findSub ('S' :: 'R' :: 'C' :: 'S' :: '_' :: '_' :: t) dunder = some 4
  rw [findSub_cons_of_not _ _ _ h1, findSub_cons_of_not _ _ _ h2,
    findSub_cons_of_not _ _ _ h3, findSub_cons_of_not _ _ _ h4,
    findSub_cons_of h5]
  rfl

theorem src_key_decomp {k : List Char} (h : isSrcKey k = true) :
    k = srcsKey ++ k.drop 4 := by
  simp only [isSrcKey, Bool.or_eq_true, decide_eq_true_eq] at h
  rcases h with h | h
  · subst h
    decide
  · obtain ⟨t, rfl⟩ := List.isPrefixOf_iff_prefix.mp h
    show srcsPre ++ t = srcsKey ++ (srcsPre ++ t).drop 4
    rw [show srcsPre ++ t = srcsKey ++ (dunder ++ t) from rfl,
      List.drop_left' (by decide)]

theorem chksumKey_eq_of_src {k : List Char} (h : isSrcKey k = true) :
    chksumKey k = chksumsKey ++ k.drop 4 := by
  simp only [isSrcKey, Bool.or_eq_true, decide_eq_true_eq] at h
  rcases h with h | h
  · subst h
    decide
  · obtain ⟨t, rfl⟩ := List.isPrefixOf_iff_prefix.mp h
    simp only [chksumKey, splitOnceSub, findSub_srcsPre]
    rw [show (srcsPre ++ t).drop (4 + dunder.length) =
        (srcsPre ++ t).drop 6 from rfl,
      List.drop_left' (by decide : srcsPre.length = 6),
      show srcsPre ++ t = srcsKey ++ (dunder ++ t) from rfl,
      List.drop_left' (by decide : srcsKey.length = 4)]
    rfl

theorem chksumKey_inj_on_src {k₁ k₂ : List Char} (h₁ : isSrcKey k₁ = true)
    (h₂ : isSrcKey k₂ = true) (he : chksumKey k₁ = chksumKey k₂) : k₁ = k₂ := by
  rw [chksumKey_eq_of_src h₁, chksumKey_eq_of_src h₂] at he
  have hd : k₁.drop 4 = k₂.drop 4 := List.append_cancel_left he
  rw [src_key_decomp h₁, src_key_decomp h₂, hd]

theorem isChksumKey_chksumKey (k : List Char) :
    isChksumKey (chksumKey k) = true := by
  simp only [chksumKey]
  cases hs : splitOnceSub k dunder with
  | none => decide
  | some pr =>
    simp only [isChksumKey, Bool.or_eq_true]
    right
    exact List.prefix_append chksumsPre pr.2 |> (List.isPrefixOf_iff_prefix.mpr)

/-! ### The write-back loop and the changed flag -/

theorem any_congr_mem {l : List α} {p q : α → Bool} (h : ∀ x ∈ l, p x = q x) :
    l.any p = l.any q := by
  induction l with
  | nil => rfl
  | cons x xs ih =>
    rw [List.any_cons, List.any_cons, h x (List.mem_cons_self x xs),
      ih (fun y hy => h y (List.mem_cons_of_mem x hy))]

theorem sameSet_of_perm {a b : List (List Char)} (h : List.Perm a b) :
    sameSet a b = true := by
  simp only [sameSet, Bool.and_eq_true, List.all_eq_true]
  constructor
  · intro x hx
    exact List.elem_iff.mpr (h.mem_iff.mp hx)
  · intro x hx
    exact List.elem_iff.mpr (h.mem_iff.mpr hx)

theorem applyResults_snd :
    ∀ {rs : List (List Char × List (List Char))} {c : Ctx} {b : Bool},
      ((rs.map (fun r => chksumKey r.1)).Nodup) →
      (applyResults (c, b) rs).2 =
        (b || rs.any (fun r => fieldTrigger c (chksumKey r.1) r.2)) := by
  intro rs
  induction rs with
  | nil => intro c b _; simp [applyResults]
  | cons r rest ih =>
    intro c b hnd
    rw [List.map_cons, List.nodup_cons] at hnd
    simp only [applyResults]
    rw [ih hnd.2]
    have htr : ∀ r' ∈ rest,
        fieldTrigger (insertCtx c (chksumKey r.1) (intercalateL spaceSep r.2))
          (chksumKey r'.1) r'.2 = fieldTrigger c (chksumKey r'.1) r'.2 := by
      intro r' hr'
      have hne : chksumKey r'.1 ≠ chksumKey r.1 := by
        intro hh
        apply hnd.1
        rw [← hh]
        exact List.mem_map_of_mem _ hr'
      simp only [fieldTrigger, lookupCtx_insert_ne hne]
    rw [any_congr_mem htr, List.any_cons, Bool.or_assoc]

theorem applyResults_lookup_not_mem :
    ∀ {rs : List (List Char × List (List Char))} {c : Ctx} {b : Bool}
      {k' : List Char}, (∀ r ∈ rs, chksumKey r.1 ≠ k') →
      lookupCtx (applyResults (c, b) rs).1 k' = lookupCtx c k' := by
  intro rs
  induction rs with
  | nil => intro c b k' _; rfl
  | cons r rest ih =>
    intro c b k' hne
    simp only [applyResults]
    rw [ih (fun q hq => hne q (List.mem_cons_of_mem r hq)),
      lookupCtx_insert_ne (fun hh => hne r (List.mem_cons_self r rest) hh.symm)]

theorem applyResults_lookup_mem :
    ∀ {rs : List (List Char × List (List Char))} {c : Ctx} {b : Bool}
      {k : List Char} {cs : List (List Char)},
      ((rs.map (fun r => chksumKey r.1)).Nodup) → (k, cs) ∈ rs →
      lookupCtx (applyResults (c, b) rs).1 (chksumKey k) =
        some (intercalateL spaceSep cs) := by
  intro rs
  induction rs with
  | nil => intro c b k cs _ hm; cases hm
  | cons r rest ih =>
    intro c b k cs hnd hm
    rw [List.map_cons, List.nodup_cons] at hnd
    rcases List.mem_cons.mp hm with hh | hh
    · simp only [applyResults]
      have hrk : r.1 = k := by rw [← hh]
      have hne : ∀ r' ∈ rest, chksumKey r'.1 ≠ chksumKey k := by
        intro r' hr' hcontra
        apply hnd.1
        rw [hrk, ← hcontra]
        exact List.mem_map_of_mem _ hr'
      rw [applyResults_lookup_not_mem hne, ← hh, lookupCtx_insert_self]
    · simp only [applyResults]
      exact ih hnd.2 hh

theorem forall₂_mem_left {R : α → β → Prop} :
    ∀ {l : List α} {l' : List β}, List.Forall₂ R l l' →
      ∀ {a : α}, a ∈ l → ∃ b ∈ l', R a b := by
  intro l l' h
  induction h with
  | nil => intro a ha; cases ha
  | cons hx _ ih =>
    intro a ha
    rcases List.mem_cons.mp ha with hh | hh
    · subst hh
      exact ⟨_, List.mem_cons_self _ _, hx⟩
    · obtain ⟨b, hb, hr⟩ := ih hh
      exact ⟨b, List.mem_cons_of_mem _ hb, hr⟩

theorem forall₂_mem_right {R : α → β → Prop} :
    ∀ {l : List α} {l' : List β}, List.Forall₂ R l l' →
      ∀ {b : β}, b ∈ l' → ∃ a ∈ l, R a b := by
  intro l l' h
  induction h with
  | nil => intro b hb; cases hb
  | cons hx _ ih =>
    intro b hb
    rcases List.mem_cons.mp hb with hh | hh
    · subst hh
      exact ⟨_, List.mem_cons_self _ _, hx⟩
    · obtain ⟨a, ha, hr⟩ := ih hh
      exact ⟨a, List.mem_cons_of_mem _ ha, hr⟩

theorem fieldRel_iff {pypi : List Char → List Char → Option (List Char)}
    {fetch : List Char → Option (List Char)} {kv : List Char × List Char}
    {r : List Char × List (List Char)} :
    ((match updateFieldSeq pypi fetch kv.2 with
      | Except.error e => Except.error e
      | Except.ok cs => Except.ok (kv.1, cs)) = Except.ok r) ↔
    (r.1 = kv.1 ∧ updateFieldSeq pypi fetch kv.2 = Except.ok r.2) := by
  cases h : updateFieldSeq pypi fetch kv.2 with
  | error e => simp
  | ok cs =>
    simp only [Except.ok.injEq]
    constructor
    · intro hh
      rw [← hh]
      exact ⟨rfl, rfl⟩
    · rintro ⟨h1, h2⟩
      cases h2
      obtain ⟨k', cs'⟩ := r
      simp only at h1
      rw [h1]

theorem forall₂_fst_eq {l : Ctx} {results : List (List Char × List (List Char))}
    (h : List.Forall₂ (fun a b => (b.1 = a.1 : Prop)) l results) :
    results.map Prod.fst = l.map Prod.fst := by
  induction h with
  | nil => rfl
  | cons hx _ ih => simp only [List.map_cons, hx, ih]

theorem srcs_chksum_keys_nodup {ctx : Ctx} (hnd : (ctx.map Prod.fst).Nodup) :
    (((ctx.filter (fun kv => isSrcKey kv.1)).map Prod.fst).map chksumKey).Nodup := by
  have h1 : ((ctx.filter (fun kv => isSrcKey kv.1)).map Prod.fst).Nodup :=
    hnd.sublist ((List.filter_sublist ctx).map Prod.fst)
  refine h1.map_on ?_
  intro x hx y hy he
  obtain ⟨kvx, hkvx, rfl⟩ := List.mem_map.mp hx
  obtain ⟨kvy, hkvy, rfl⟩ := List.mem_map.mp hy
  have hsx : isSrcKey kvx.1 = true := (List.mem_filter.mp hkvx).2
  have hsy : isSrcKey kvy.1 = true := (List.mem_filter.mp hkvy).2
  exact chksumKey_inj_on_src hsx hsy he

/-- Inversion of a successful `update_all_checksum` call: the per-field
results and how context and flag are produced from them. -/
theorem update_all_ok_inv {pypi : List Char → List Char → Option (List Char)}
    {fetch : List Char → Option (List Char)} {ctx ctx' : Ctx} {ch : Bool}
    (h : update_all_checksum pypi fetch ctx = Except.ok (ctx', ch)) :
    ∃ results,
      mapME (fun kv =>
        match updateFieldSeq pypi fetch kv.2 with
        | Except.error e => Except.error e
        | Except.ok cs => Except.ok (kv.1, cs))
        (ctx.filter (fun kv => isSrcKey kv.1)) = Except.ok results ∧
      applyResults (ctx, false) results = (ctx', ch) := by
  simp only [update_all_checksum] at h
  cases hm : mapME (fun kv =>
      match updateFieldSeq pypi fetch kv.2 with
      | Except.error e => Except.error e
      | Except.ok cs => Except.ok (kv.1, cs))
      (ctx.filter (fun kv => isSrcKey kv.1)) with
  | error e => rw [hm] at h; cases h
  | ok results =>
    rw [hm] at h
    injection h with h2
    exact ⟨results, rfl, h2⟩

/-- The changed flag of a successful `update_all_checksum` call is raised
exactly when some source field's freshly computed checksum list triggers
the per-field change test against the original context. -/
theorem update_all_changed_iff
    {pypi : List Char → List Char → Option (List Char)}
    {fetch : List Char → Option (List Char)} {ctx ctx' : Ctx} {ch : Bool}
    (hnd : (ctx.map Prod.fst).Nodup)
    (h : update_all_checksum pypi fetch ctx = Except.ok (ctx', ch)) :
    ch = true ↔
      ∃ kv ∈ ctx.filter (fun kv => isSrcKey kv.1), ∃ cs,
        updateFieldSeq pypi fetch kv.2 = Except.ok cs ∧
        fieldTrigger ctx (chksumKey kv.1) cs = true := by
  obtain ⟨results, hm, happ⟩ := update_all_ok_inv h
  have hf2 := mapME_ok_forall₂ hm
  have hf3 : List.Forall₂
      (fun kv r => (r.1 = kv.1 ∧
        updateFieldSeq pypi fetch kv.2 = Except.ok r.2 : Prop))
      (ctx.filter (fun kv => isSrcKey kv.1)) results :=
    hf2.imp (fun a b hab => fieldRel_iff.mp hab)
  have hkeys : results.map Prod.fst =
      (ctx.filter (fun kv => isSrcKey kv.1)).map Prod.fst :=
    forall₂_fst_eq (hf3.imp (fun a b hab => hab.1))
  have hknd : (results.map (fun r => chksumKey r.1)).Nodup := by
    have he : results.map (fun r => chksumKey r.1) =
        (results.map Prod.fst).map chksumKey := by
      rw [List.map_map]
      rfl
    rw [he, hkeys]
    exact srcs_chksum_keys_nodup hnd
  have hch : ch = results.any (fun r => fieldTrigger ctx (chksumKey r.1) r.2) := by
    have := applyResults_snd (c := ctx) (b := false) hknd
    rw [happ] at this
    simpa using this
  rw [hch, List.any_eq_true]
  constructor
  · rintro ⟨r, hr, htrig⟩
    obtain ⟨kv, hkv, hrel⟩ := forall₂_mem_right hf3 hr
    refine ⟨kv, hkv, r.2, hrel.2, ?_⟩
    rw [← hrel.1]
    exact htrig
  · rintro ⟨kv, hkv, cs, hcs, htrig⟩
    obtain ⟨r, hr, hrel⟩ := forall₂_mem_left hf3 hkv
    refine ⟨r, hr, ?_⟩
    have hcs2 : r.2 = cs := by
      rw [hcs] at hrel
      exact (Except.ok.injEq _ _ ▸ hrel.2.symm)
    rw [hrel.1, hcs2]
    exact htrig

/-- A successful `update_all_checksum` call stores each source field's
space-joined checksum list under the corresponding output key. -/
theorem update_all_lookup
    {pypi : List Char → List Char → Option (List Char)}
    {fetch : List Char → Option (List Char)} {ctx ctx' : Ctx} {ch : Bool}
    (hnd : (ctx.map Prod.fst).Nodup)
    (h : update_all_checksum pypi fetch ctx = Except.ok (ctx', ch))
    {kv : List Char × List Char}
    (hkv : kv ∈ ctx.filter (fun kv => isSrcKey kv.1))
    {cs : List (List Char)}
    (hcs : updateFieldSeq pypi fetch kv.2 = Except.ok cs) :
    lookupCtx ctx' (chksumKey kv.1) = some (intercalateL spaceSep cs) := by
  obtain ⟨results, hm, happ⟩ := update_all_ok_inv h
  have hf2 := mapME_ok_forall₂ hm
  have hf3 : List.Forall₂
      (fun kv r => (r.1 = kv.1 ∧
        updateFieldSeq pypi fetch kv.2 = Except.ok r.2 : Prop))
      (ctx.filter (fun kv => isSrcKey kv.1)) results :=
    hf2.imp (fun a b hab => fieldRel_iff.mp hab)
  have hkeys : results.map Prod.fst =
      (ctx.filter (fun kv => isSrcKey kv.1)).map Prod.fst :=
    forall₂_fst_eq (hf3.imp (fun a b hab => hab.1))
  have hknd : (results.map (fun r => chksumKey r.1)).Nodup := by
    have he : results.map (fun r => chksumKey r.1) =
        (results.map Prod.fst).map chksumKey := by
      rw [List.map_map]
      rfl
    rw [he, hkeys]
    exact srcs_chksum_keys_nodup hnd
  obtain ⟨r, hr, hrel⟩ := forall₂_mem_left hf3 hkv
  have hmem : (kv.1, cs) ∈ results := by
    have hcs2 : r.2 = cs := by
      rw [hcs] at hrel
      exact (Except.ok.injEq _ _ ▸ hrel.2.symm)
    have : r = (kv.1, cs) := by
      obtain ⟨r1, r2⟩ := r
      simp only at hrel hcs2
      rw [hrel.1, hcs2]
    rw [← this]
    exact hr
  have := applyResults_lookup_mem (c := ctx) (b := false) hknd hmem
  rw [happ] at this
  exact this

theorem fieldTrigger_true_iff {ctx : Ctx} {key : List Char}
    {cs : List (List Char)} :
    fieldTrigger ctx key cs = true ↔
      (lookupCtx ctx key = none ∨
        ∃ old, lookupCtx ctx key = some old ∧
          sameSet (splitWS (trimL old)) cs = false) := by
  simp only [fieldTrigger]
  cases h : lookupCtx ctx key with
  | none => simp [h]
  | some old => simp [h, Bool.not_eq_true']

/-- C5: the changed flag returned by `update_all_checksum` is true iff for
some source field the computed checksum set differs as a set from the
whitespace-split stored output value, or that output field is absent from
the context; in particular the per-field test is order-insensitive: a
stored value that is a mere permutation of the computed list never
triggers. -/
theorem c5_changed_iff_set_diff
    (pypi : List Char → List Char → Option (List Char))
    (fetch : List Char → Option (List Char)) (ctx ctx' : Ctx) (ch : Bool)
    (hnd : (ctx.map Prod.fst).Nodup)
    (h : update_all_checksum pypi fetch ctx = Except.ok (ctx', ch)) :
    (ch = true ↔
      ∃ kv ∈ ctx.filter (fun kv => isSrcKey kv.1), ∃ cs,
        updateFieldSeq pypi fetch kv.2 = Except.ok cs ∧
        (lookupCtx ctx (chksumKey kv.1) = none ∨
          ∃ old, lookupCtx ctx (chksumKey kv.1) = some old ∧
            sameSet (splitWS (trimL old)) cs = false)) ∧
    (∀ (key old : List Char) (cs : List (List Char)),
      lookupCtx ctx key = some old →
      List.Perm (splitWS (trimL old)) cs →
      fieldTrigger ctx key cs = false) := by
  constructor
  · rw [update_all_changed_iff hnd h]
    simp only [fieldTrigger_true_iff]
  · intro key old cs hlk hperm
    simp [fieldTrigger, hlk, sameSet_of_perm hperm]

/-- Context for the C5 witness: the stored checksum value lists the same
tokens as the computed list, in a different order. -/
def ctx5 : Ctx :=
  [(srcsKey, "git::a tbl::u".data), (chksumsKey, "sha256::x SKIP".data)]

/-- Updated context of the C5 witness. -/
def ctx5' : Ctx :=
  [(chksumsKey, "SKIP sha256::x".data), (srcsKey, "git::a tbl::u".data)]

/-- Fetch oracle of the C5 witness. -/
def fetch5 : List Char → Option (List Char) := fun s =>
  if s = "u".data then some ("sha256::x".data) else none

/-- Witness for C5: a reordered stored set yields changed = false. -/
theorem c5_changed_iff_set_diff_witness :
    ((false : Bool) = true ↔
      ∃ kv ∈ ctx5.filter (fun kv => isSrcKey kv.1), ∃ cs,
        updateFieldSeq pypiW fetch5 kv.2 = Except.ok cs ∧
        (lookupCtx ctx5 (chksumKey kv.1) = none ∨
          ∃ old, lookupCtx ctx5 (chksumKey kv.1) = some old ∧
            sameSet (splitWS (trimL old)) cs = false)) ∧
    (∀ (key old : List Char) (cs : List (List Char)),
      lookupCtx ctx5 key = some old →
      List.Perm (splitWS (trimL old)) cs →
      fieldTrigger ctx5 key cs = false) :=
  c5_changed_iff_set_diff pypiW fetch5 ctx5 ctx5' false (by decide) (by decide)

/-- Context of the C4 counterexample: two VCS sources compute the token
`SKIP` twice, while the stored checksum field holds it once — same distinct
values, different repetition counts. -/
def ctx4 : Ctx := [(srcsKey, "git::a git::b".data), (chksumsKey, skipTok)]

/-- Updated context of the C4 counterexample. -/
def ctx4c : Ctx :=
  [(chksumsKey, "SKIP SKIP".data), (srcsKey, "git::a git::b".data)]

/-- C4 counterexample: the computed list holds `SKIP` twice, the stored
field holds it once — equal distinct values with different repetition
counts — yet `update_all_checksum` returns changed = false, because the
comparison collapses both sides into `HashSet`s.  This refutes the claim
that the flag would be true. -/
theorem c4_counterexample :
    updateFieldSeq pypiW fetchW ("git::a git::b".data) =
      Except.ok [skipTok, skipTok] ∧
    splitWS (trimL skipTok) = [skipTok] ∧
    update_all_checksum pypiW fetchW ctx4 = Except.ok (ctx4c, false) := by
  decide

/-- C4 amended: change detection distinguishes sets, not multisets — a
field whose stored value and computed list have the same distinct token
values (regardless of repetition counts) never raises the changed flag,
and if every source field is in that situation the call returns
changed = false. -/
theorem c4_amended_sets_not_multisets
    (pypi : List Char → List Char → Option (List Char))
    (fetch : List Char → Option (List Char)) (ctx ctx' : Ctx) (ch : Bool)
    (hnd : (ctx.map Prod.fst).Nodup)
    (h : update_all_checksum pypi fetch ctx = Except.ok (ctx', ch))
    (hall : ∀ kv ∈ ctx.filter (fun kv => isSrcKey kv.1),
      ∀ cs, updateFieldSeq pypi fetch kv.2 = Except.ok cs →
        ∃ old, lookupCtx ctx (chksumKey kv.1) = some old ∧
          sameSet (splitWS (trimL old)) cs = true) :
    ch = false := by
  cases hch : ch with
  | false => rfl
  | true =>
    rw [hch] at h
    obtain ⟨kv, hkv, cs, hcs, htrig⟩ := (update_all_changed_iff hnd h).mp rfl
    obtain ⟨old, hold, hset⟩ := hall kv hkv cs hcs
    simp only [fieldTrigger, hold, hset] at htrig
    cases htrig

/-- Witness for C4 amended, at the duplicated-counts input of the
counterexample. -/
theorem c4_amended_witness :
    update_all_checksum pypiW fetchW ctx4 = Except.ok (ctx4c, false) ∧
    (false : Bool) = false := by
  refine ⟨by decide, ?_⟩
  refine c4_amended_sets_not_multisets pypiW fetchW ctx4 ctx4c false
    (by decide) (by decide) ?_
  intro kv hkv cs hcs
  have hfil : ctx4.filter (fun kv => isSrcKey kv.1) =
      [(srcsKey, "git::a git::b".data)] := by decide
  rw [hfil] at hkv
  rw [List.mem_singleton.mp hkv] at hcs ⊢
  have hval : updateFieldSeq pypiW fetchW ("git::a git::b".data) =
      Except.ok [skipTok, skipTok] := by decide
  rw [hval] at hcs
  injection hcs with hcs2
  rw [← hcs2]
  exact ⟨skipTok, by decide, by decide⟩

/-- C7: a registry-lookup (`pypi`) token with no `version=` option segment
fails classification with the configuration error, and the whole
`update_all_checksum` call then returns an error: no checksum map and no
partial result is produced. -/
theorem c7_pypi_missing_version
    (pypi : List Char → List Char → Option (List Char))
    (fetch : List Char → Option (List Char)) (ctx : Ctx)
    (kv : List Char × List Char) (tok : List Char)
    (hkv : kv ∈ ctx) (hk : isSrcKey kv.1 = true) (ht : tok ∈ splitWS kv.2)
    (hp : toLowerL (trimL ((splitOnSep sep2 (trimL tok)).head?.getD tblTag)) =
      pypiTag)
    (hv : findVersionOpt (splitOnSep sep2 (trimL tok)) = none) :
    classify pypi tok = Except.error UErr.pypiIllegal ∧
    ∃ e, update_all_checksum pypi fetch ctx = Except.error e := by
  have hcls : classify pypi tok = Except.error UErr.pypiIllegal := by
    simp only [classify, hp, if_true, hv]
  refine ⟨hcls, ?_⟩
  have hstep : (match classify pypi tok with
      | Except.error e => Except.error e
      | Except.ok s => resolveSlot fetch s) =
      (Except.error UErr.pypiIllegal : Except UErr (List Char)) := by
    rw [hcls]
  obtain ⟨e', he'⟩ : ∃ e', updateFieldSeq pypi fetch kv.2 = Except.error e' :=
    mapME_error_of_mem ht hstep
  have hstep2 : (match updateFieldSeq pypi fetch kv.2 with
      | Except.error e => Except.error e
      | Except.ok cs => Except.ok (kv.1, cs)) =
      (Except.error e' : Except UErr (List Char × List (List Char))) := by
    rw [he']
  obtain ⟨e'', he''⟩ : ∃ e'', mapME (fun kv =>
      match updateFieldSeq pypi fetch kv.2 with
      | Except.error e => Except.error e
      | Except.ok cs => Except.ok (kv.1, cs))
      (ctx.filter (fun kv => isSrcKey kv.1)) = Except.error e'' :=
    mapME_error_of_mem (List.mem_filter.mpr ⟨hkv, hk⟩) hstep2
  exact ⟨e'', by simp only [update_all_checksum, he'']⟩

/-- Context of the C7 witness. -/
def ctx7 : Ctx := [(srcsKey, "pypi::mypkg".data)]

/-- Witness for C7 at a concrete pypi token with no version option. -/
theorem c7_pypi_missing_version_witness :
    classify pypiW ("pypi::mypkg".data) = Except.error UErr.pypiIllegal ∧
    ∃ e, update_all_checksum pypiW fetchW ctx7 = Except.error e :=
  c7_pypi_missing_version pypiW fetchW ctx7 (srcsKey, "pypi::mypkg".data)
    ("pypi::mypkg".data) (by decide) (by decide) (by decide) (by decide)
    (by decide)

/-! ### The exact-text patcher -/

/-- C2 counterexample: a recipe text with no `CHKSUMS` field.  The full
pipeline reaches the patcher with a freshly created `CHKSUMS` entry, the
field-name search fails, and the Rust code panics on `unwrap` —
`SpecOutcome.panicked` / `none`, not a returned error value.  This refutes
the claim that a structured `PatchError`-class error is returned to the
caller. -/
theorem c2_counterexample :
    get_new_spec apmlModel pypiW fetchW ("SRCS=\"git::a\"".data) =
      SpecOutcome.panicked ∧
    update_spec_inner [(chksumsKey, [skipTok])] ("SRCS=\"git::a\"".data) =
      none ∧
    ∀ e, SpecOutcome.panicked ≠ SpecOutcome.failed e := by
  refine ⟨by decide, by decide, ?_⟩
  intro e h
  cases h

/-- C2 amended: a field to be patched whose name does not occur in the text
(or whose opening or closing quote cannot be located) makes the patcher
panic (`unwrap` on a failed `find`, modelled `none`): the call terminates
abnormally without returning an error value — but it never silently skips
the field (it never returns a text). -/
theorem c2_amended_panics (k : List Char) (v : List (List Char))
    (s : List Char)
    (h : findSub s k = none ∨
      (∃ st, findSub s k = some st ∧ findSub (s.drop st) quoteTok = none) ∨
      (∃ st sd, findSub s k = some st ∧
        findSub (s.drop st) quoteTok = some sd ∧
        findSub ((s.drop st).drop (sd + 1)) quoteTok = none)) :
    update_spec_inner [(k, v)] s = none := by
  rcases h with h | ⟨st, h1, h2⟩ | ⟨st, sd, h1, h2, h3⟩
  · simp only [update_spec_inner, patchOne, h]
  · simp only [update_spec_inner, patchOne, h1, h2]
  · simp only [update_spec_inner, patchOne, h1, h2, h3]

/-- Witness for C2 amended: the missing-field input of the counterexample
panics. -/
theorem c2_amended_panics_witness :
    update_spec_inner [(chksumsKey, ["sha256::xyz".data])]
      ("VER=1\nSRCS=\"git::a\"".data) = none :=
  c2_amended_panics chksumsKey ["sha256::xyz".data]
    ("VER=1\nSRCS=\"git::a\"".data) (Or.inl (by decide))

/-- Architecture-suffixed field name of the C3 counterexample. -/
def amdKey : List Char := "CHKSUMS__amd64".data

/-- What the patcher actually writes for `amdKey` (nine-space indent). -/
def c3actual : List Char :=
  amdKey ++ "=\"sha256::aa \\\n         sha256::bb\"".data

/-- What the claim predicts for `amdKey` (sixteen-space indent, aligning
under the opening quote of `CHKSUMS__amd64="`). -/
def c3claimed : List Char :=
  amdKey ++ "=\"sha256::aa \\\n                sha256::bb\"".data

/-- C3 counterexample: for the architecture-suffixed field
`CHKSUMS__amd64` the patcher indents continuation lines by nine spaces —
the width of `CHKSUMS="` — not by the length of `CHKSUMS__amd64="`
(sixteen), so continuation tokens do not align under the opening quote.
This refutes the claim that the alignment holds for every field name. -/
theorem c3_counterexample :
    update_spec_inner [(amdKey, ["sha256::aa".data, "sha256::bb".data])]
      (amdKey ++ "=\"x\"".data) = some c3actual ∧
    c3actual ≠ c3claimed ∧
    ("CHKSUMS__amd64=\"".data).length = 16 := by
  decide

/-- C3 amended: the patcher rewrites a located field as
`F="tok1 \<newline><indent>tok2 ..."` where the continuation indent is the
fixed string of nine spaces — the width of `CHKSUMS="` — for every field
name, architecture-suffixed or not. -/
theorem c3_amended_fixed_indent (k : List Char) (v : List (List Char))
    (s : List Char) (st sd ed : Nat)
    (h1 : findSub s k = some st)
    (h2 : findSub (s.drop st) quoteTok = some sd)
    (h3 : findSub ((s.drop st).drop (sd + 1)) quoteTok = some ed) :
    update_spec_inner [(k, v)] s =
      some (replaceRangeL s st (st + sd + ed + 2)
        (k ++ eqQuoteTok ++ intercalateL contSep v ++ quoteTok)) ∧
    ∀ t1 t2 ts, v = t1 :: t2 :: ts →
      intercalateL contSep v =
        t1 ++ (' ' :: '\\' :: '\n' :: List.replicate 9 ' ') ++
          intercalateL contSep (t2 :: ts) := by
  constructor
  · simp only [update_spec_inner, patchOne, h1, h2, h3]
  · rintro t1 t2 ts rfl
    rfl

/-- Witness for C3 amended at the architecture-suffixed field of the
counterexample. -/
theorem c3_amended_fixed_indent_witness :
    update_spec_inner [(amdKey, ["sha256::aa".data, "sha256::bb".data])]
      (amdKey ++ "=\"x\"".data) =
      some (replaceRangeL (amdKey ++ "=\"x\"".data) 0 (0 + 15 + 1 + 2)
        (amdKey ++ eqQuoteTok ++
          intercalateL contSep ["sha256::aa".data, "sha256::bb".data] ++
          quoteTok)) ∧
    ∀ t1 t2 ts,
      (["sha256::aa".data, "sha256::bb".data] : List (List Char)) =
        t1 :: t2 :: ts →
      intercalateL contSep ["sha256::aa".data, "sha256::bb".data] =
        t1 ++ (' ' :: '\\' :: '\n' :: List.replicate 9 ' ') ++
          intercalateL contSep (t2 :: ts) :=
  c3_amended_fixed_indent amdKey ["sha256::aa".data, "sha256::bb".data]
    (amdKey ++ "=\"x\"".data) 0 15 1 (by decide) (by decide) (by decide)

theorem findSub_quote_here (l : List Char) :
    findSub ('"' :: l) quoteTok = some 0 :=
  findSub_cons_of (by simp [quoteTok])

theorem findSub_quote_append :
    ∀ (p s : List Char), '"' ∉ p →
      findSub (p ++ s) quoteTok = (findSub s quoteTok).map (· + p.length) := by
  intro p
  induction p with
  | nil =>
    intro s _
    rw [List.nil_append]
    cases hf : findSub s quoteTok <;> simp [hf]
  | cons c p' ih =>
    intro s hc
    have hcq : ¬ ('"' = c) := fun hh => hc (hh ▸ List.mem_cons_self c p')
    have hpre : List.isPrefixOf quoteTok (c :: (p' ++ s)) = false := by
      simp only [quoteTok, List.isPrefixOf_cons₂, List.isPrefixOf_nil_left,
        Bool.and_true, beq_eq_false_iff_ne, ne_eq]
      exact hcq
    rw [List.cons_append, findSub_cons_of_not _ _ _ hpre,
      ih s (fun hm => hc (List.mem_cons_of_mem c hm))]
    cases findSub s quoteTok <;> simp
    omega

/-- The two-token backslash-continued field of C6, as it appears in the
recipe text. -/
def oldFieldC6 : List Char := "CHKSUMS=\"sha256::abc \\\n         SKIP\"".data

/-- The single-token field C6 expects the patcher to write. -/
def newFieldC6 : List Char := "CHKSUMS=\"sha256::xyz\"".data

/-- C6: in any recipe text of the shape `p ++ CHKSUMS="sha256::abc \<nl>
SKIP" ++ s` whose first `CHKSUMS` occurrence is that field, patching with
the single token `sha256::xyz` yields exactly `p ++ CHKSUMS="sha256::xyz"
++ s`: the whole two-token backslash-continued span is replaced and every
byte outside it is unchanged. -/
theorem c6_patch_exact (p s : List Char)
    (h : findSub (p ++ (oldFieldC6 ++ s)) chksumsKey = some p.length) :
    update_spec_inner [(chksumsKey, ["sha256::xyz".data])]
      (p ++ (oldFieldC6 ++ s)) = some (p ++ (newFieldC6 ++ s)) := by
  have hdrop : (p ++ (oldFieldC6 ++ s)).drop p.length = oldFieldC6 ++ s :=
    List.drop_left p (oldFieldC6 ++ s)
  have hq1 : findSub (oldFieldC6 ++ s) quoteTok = some 8 := by
    rw [show oldFieldC6 ++ s = ("CHKSUMS=".data) ++
        ('"' :: ("sha256::abc \\\n         SKIP\"".data ++ s)) from rfl,
      findSub_quote_append _ _ (by decide), findSub_quote_here]
    rfl
  have hdrop2 : (oldFieldC6 ++ s).drop 9 =
      ("sha256::abc \\\n         SKIP".data) ++ ('"' :: s) := by
    rw [show oldFieldC6 ++ s = ("CHKSUMS=\"".data) ++
        (("sha256::abc \\\n         SKIP".data) ++ ('"' :: s)) from rfl,
      List.drop_left' (by decide)]
  have hq2 : findSub ((oldFieldC6 ++ s).drop 9) quoteTok = some 27 := by
    rw [hdrop2, findSub_quote_append _ _ (by decide), findSub_quote_here]
    rfl
  simp only [update_spec_inner, patchOne, h, hdrop, hq1]
  rw [show (8 : Nat) + 1 = 9 from rfl]
  simp only [hq2]
  rw [show p.length + 8 + 27 + 2 = p.length + 37 from by omega]
  have hrep : replaceRangeL (p ++ (oldFieldC6 ++ s)) p.length (p.length + 37)
      (chksumsKey ++ eqQuoteTok ++
        intercalateL contSep ["sha256::xyz".data] ++ quoteTok) =
      p ++ (newFieldC6 ++ s) := by
    simp only [replaceRangeL]
    rw [show p ++ (oldFieldC6 ++ s) = (p ++ oldFieldC6) ++ s from
      (List.append_assoc p oldFieldC6 s).symm]
    rw [List.take_append_of_le_length (by simp), List.take_left,
      List.drop_left' (by simp [oldFieldC6])]
    rw [show chksumsKey ++ eqQuoteTok ++
      intercalateL contSep ["sha256::xyz".data] ++ quoteTok =
        newFieldC6 from rfl]
    rw [List.append_assoc]
  rw [hrep]

/-- Witness for C6 with concrete surrounding text. -/
theorem c6_patch_exact_witness :
    update_spec_inner [(chksumsKey, ["sha256::xyz".data])]
      (("VER=5\n".data) ++ (oldFieldC6 ++ ("\nEND=1".data))) =
      some (("VER=5\n".data) ++ (newFieldC6 ++ ("\nEND=1".data))) :=
  c6_patch_exact ("VER=5\n".data) ("\nEND=1".data) (by decide)

/-! ### The public entry points -/

/-- C9: the public entry points invoke the parser with the fallback
disabled.  Whenever the structured parser rejects the input,
`parse_from_str` returns exactly the parse failure, `update_from_str` and
`get_new_spec` fail with the parse error independently of the network
oracles (no source entry is classified, resolved, or fetched), and the
lenient quote-stripping fallback is only reachable with
`allowFallback = true`, which no public entry point passes. -/
theorem c9_no_fallback
    (apml : List Char → Except Unit Ctx)
    (pypi₁ pypi₂ : List Char → List Char → Option (List Char))
    (fetch₁ fetch₂ : List Char → Option (List Char)) (s : List Char)
    (e : Unit) (h : apml s = Except.error e) :
    parse_from_str apml s false = Except.error UErr.parseFailed ∧
    update_from_str apml pypi₁ fetch₁ s = Except.error UErr.parseFailed ∧
    get_new_spec apml pypi₁ fetch₁ s = SpecOutcome.failed UErr.parseFailed ∧
    update_from_str apml pypi₁ fetch₁ s = update_from_str apml pypi₂ fetch₂ s ∧
    get_new_spec apml pypi₁ fetch₁ s = get_new_spec apml pypi₂ fetch₂ s ∧
    parse_from_str apml s true = Except.ok (fallbackParse s) := by
  have h1 : parse_from_str apml s false = Except.error UErr.parseFailed := by
    simp [parse_from_str, h]
  have h2 : ∀ (py : List Char → List Char → Option (List Char))
      (fe : List Char → Option (List Char)),
      update_from_str apml py fe s = Except.error UErr.parseFailed := by
    intro py fe
    simp [update_from_str, h1]
  have h3 : ∀ (py : List Char → List Char → Option (List Char))
      (fe : List Char → Option (List Char)),
      get_new_spec apml py fe s = SpecOutcome.failed UErr.parseFailed := by
    intro py fe
    simp [get_new_spec, h2]
  refine ⟨h1, h2 pypi₁ fetch₁, h3 pypi₁ fetch₁, ?_, ?_, ?_⟩
  · rw [h2, h2]
  · rw [h3, h3]
  · simp [parse_from_str, h]

/-- A structured parser that rejects every input, for the C9 witness. -/
def apml9 : List Char → Except Unit Ctx := fun _ => Except.error ()

/-- Witness for C9 at a concrete rejected input. -/
theorem c9_no_fallback_witness :
    parse_from_str apml9 ("bad".data) false = Except.error UErr.parseFailed ∧
    update_from_str apml9 pypiW fetchW ("bad".data) =
      Except.error UErr.parseFailed ∧
    get_new_spec apml9 pypiW fetchW ("bad".data) =
      SpecOutcome.failed UErr.parseFailed ∧
    update_from_str apml9 pypiW fetchW ("bad".data) =
      update_from_str apml9 pypiW fetch5 ("bad".data) ∧
    get_new_spec apml9 pypiW fetchW ("bad".data) =
      get_new_spec apml9 pypiW fetch5 ("bad".data) ∧
    parse_from_str apml9 ("bad".data) true =
      Except.ok (fallbackParse ("bad".data)) :=
  c9_no_fallback apml9 pypiW pypiW fetchW fetch5 ("bad".data) () rfl

/-- Input recipe of C10: the stored field holds the same token set as the
computed one (`changed = false`), but with a different token count and
layout. -/
def c10Spec : List Char := "SRCS=\"git::a\"\nCHKSUMS=\"SKIP SKIP\"".data

/-- Output text of C10: the checksum field is re-serialized anyway. -/
def c10Out : List Char := "SRCS=\"git::a\"\nCHKSUMS=\"SKIP\"".data

/-- C10: `get_new_spec` rewrites every checksum field of the result map
unconditionally, even when it returns changed = false — so changed = false
does not imply the output text is byte-identical to the input. -/
theorem c10_rewrites_even_unchanged :
    get_new_spec apmlModel pypiW fetchW c10Spec =
      SpecOutcome.updated c10Out false ∧
    c10Out ≠ c10Spec := by
  decide

/-! ### Idempotence support: whitespace split of a space join -/

theorem splitWSAux_append_no_ws :
    ∀ (t rest acc : List Char), (∀ c ∈ t, c.isWhitespace = false) →
      splitWSAux (t ++ rest) acc = splitWSAux rest (t.reverse ++ acc) := by
  intro t
  induction t with
  | nil => intro rest acc _; simp
  | cons c t' ih =>
    intro rest acc h
    have hc : c.isWhitespace = false := h c (List.mem_cons_self c t')
    rw [List.cons_append]
    show (if c.isWhitespace then
        if acc = [] then splitWSAux (t' ++ rest) []
        else acc.reverse :: splitWSAux (t' ++ rest) []
      else splitWSAux (t' ++ rest) (c :: acc)) = _
    rw [hc]
    simp only [Bool.false_eq_true, if_false]
    rw [ih rest (c :: acc) (fun d hd => h d (List.mem_cons_of_mem c hd))]
    simp [List.reverse_cons, List.append_assoc]

theorem splitWS_single {t : List Char} (hne : t ≠ [])
    (h : ∀ c ∈ t, c.isWhitespace = false) : splitWS t = [t] := by
  have haux := splitWSAux_append_no_ws t [] [] h
  rw [List.append_nil] at haux
  rw [splitWS, haux]
  simp only [splitWSAux, List.append_nil]
  rw [if_neg (by simp [hne]), List.reverse_reverse]

theorem splitWS_join :
    ∀ (toks : List (List Char)),
      (∀ t ∈ toks, t ≠ [] ∧ ∀ c ∈ t, c.isWhitespace = false) →
      splitWS (intercalateL spaceSep toks) = toks := by
  intro toks
  induction toks with
  | nil => intro _; rfl
  | cons t rest ih =>
    intro h
    have ht := h t (List.mem_cons_self t rest)
    cases rest with
    | nil => exact splitWS_single ht.1 ht.2
    | cons t2 rest2 =>
      show splitWS (t ++ spaceSep ++ intercalateL spaceSep (t2 :: rest2)) = _
      rw [List.append_assoc, splitWS,
        splitWSAux_append_no_ws t _ [] ht.2, List.append_nil]
      show (if (' ' : Char).isWhitespace then
          if t.reverse = [] then
            splitWSAux (intercalateL spaceSep (t2 :: rest2)) []
          else t.reverse.reverse ::
            splitWSAux (intercalateL spaceSep (t2 :: rest2)) []
        else splitWSAux (intercalateL spaceSep (t2 :: rest2))
          (' ' :: t.reverse)) = _
      rw [if_pos (by decide), if_neg (by simp [ht.1]), List.reverse_reverse]
      have ih2 := ih (fun x hx => h x (List.mem_cons_of_mem t hx))
      rw [splitWS] at ih2
      rw [ih2]

theorem updateFieldSeq_tok_wf
    {pypi : List Char → List Char → Option (List Char)}
    {fetch : List Char → Option (List Char)} {v : List Char}
    {cs : List (List Char)} (h : updateFieldSeq pypi fetch v = Except.ok cs) :
    ∀ t ∈ cs, t = skipTok ∨ ∃ src, fetch src = some t := by
  have hf := mapME_ok_forall₂ h
  intro t ht
  obtain ⟨a, _, hr⟩ := forall₂_mem_right hf ht
  cases hc : classify pypi a with
  | error e => rw [hc] at hr; cases hr
  | ok s =>
    rw [hc] at hr
    cases s with
    | skip =>
      left
      injection hr with hr2
      exact hr2.symm
    | task src =>
      right
      simp only [resolveSlot] at hr
      cases hfe : fetch src with
      | none => rw [hfe] at hr; cases hr
      | some hsh =>
        rw [hfe] at hr
        injection hr with hr2
        exact ⟨src, by rw [hfe, hr2]⟩

/-- C8: idempotence of the refresh.  For a deterministic fetch oracle whose
outputs are single whitespace-free tokens, a second `update_from_str` run
on the text produced by a first successful run returns changed = false.
The external parser is out of the repository's scope; its round-trip
behaviour on the patched text `t'` is hypothesized exactly as the spec's
checksum-field grammar guarantees it: the source fields re-parse
unchanged (`h5`) and every checksum field re-parses to a value whose
whitespace split equals that of the serialized value (`h6`). -/
theorem c8_idempotent
    (apml : List Char → Except Unit Ctx)
    (pypi : List Char → List Char → Option (List Char))
    (fetch : List Char → Option (List Char))
    (ctx1 ctx1' ctx2 : Ctx) (ch1 : Bool) (t' : List Char)
    (hwf : ∀ s hsh, fetch s = some hsh →
      hsh ≠ [] ∧ ∀ c ∈ hsh, c.isWhitespace = false)
    (hnd1 : (ctx1.map Prod.fst).Nodup)
    (hnd2 : (ctx2.map Prod.fst).Nodup)
    (h1 : update_all_checksum pypi fetch ctx1 = Except.ok (ctx1', ch1))
    (h3 : apml t' = Except.ok ctx2)
    (h5 : ctx2.filter (fun kv => isSrcKey kv.1) =
      ctx1.filter (fun kv => isSrcKey kv.1))
    (h6 : ∀ kv ∈ ctx1', isChksumKey kv.1 = true →
      (lookupCtx ctx2 kv.1).map (fun w => splitWS (trimL w)) =
        some (splitWS kv.2)) :
    ∃ r2, update_from_str apml pypi fetch t' = Except.ok r2 ∧
      r2.changed = false := by
  obtain ⟨results, hm, _⟩ := update_all_ok_inv h1
  have hm2 : mapME (fun kv =>
      match updateFieldSeq pypi fetch kv.2 with
      | Except.error e => Except.error e
      | Except.ok cs => Except.ok (kv.1, cs))
      (ctx2.filter (fun kv => isSrcKey kv.1)) = Except.ok results := by
    rw [h5]
    exact hm
  rcases hap : applyResults (ctx2, false) results with ⟨c2', ch2⟩
  have h2run : update_all_checksum pypi fetch ctx2 = Except.ok (c2', ch2) := by
    simp only [update_all_checksum, hm2, hap]
  have hch : ch2 = false := by
    cases hc2 : ch2 with
    | false => rfl
    | true =>
      rw [hc2] at h2run
      obtain ⟨kv, hkv, cs, hcs, htrig⟩ :=
        (update_all_changed_iff hnd2 h2run).mp rfl
      rw [h5] at hkv
      have hlk1 : lookupCtx ctx1' (chksumKey kv.1) =
          some (intercalateL spaceSep cs) :=
        update_all_lookup hnd1 h1 hkv hcs
      have hmem1' : (chksumKey kv.1, intercalateL spaceSep cs) ∈ ctx1' :=
        lookupCtx_mem hlk1
      have h6' := h6 _ hmem1' (isChksumKey_chksumKey kv.1)
      have hcs_wf : ∀ t ∈ cs, t ≠ [] ∧ ∀ c ∈ t, c.isWhitespace = false := by
        intro t ht
        rcases updateFieldSeq_tok_wf hcs t ht with hsk | ⟨src, hf⟩
        · subst hsk
          exact ⟨by decide, by decide⟩
        · exact hwf src t hf
      have hsplit : splitWS (intercalateL spaceSep cs) = cs :=
        splitWS_join cs hcs_wf
      simp only at h6'
      rw [hsplit] at h6'
      cases hlk2 : lookupCtx ctx2 (chksumKey kv.1) with
      | none => rw [hlk2] at h6'; cases h6'
      | some w =>
        rw [hlk2] at h6'
        simp only [Option.map_some'] at h6'
        injection h6' with h6''
        simp only [fieldTrigger, hlk2, h6''] at htrig
        rw [sameSet_of_perm (List.Perm.refl cs)] at htrig
        simp at htrig
  refine ⟨⟨ch2, (c2'.filter (fun kv => isChksumKey kv.1)).map
    (fun kv => (kv.1, splitWS kv.2))⟩, ?_, hch⟩
  simp only [update_from_str, parse_from_str, h3, h2run]

/-- Input recipe of the C8 witness. -/
def c8Spec : List Char := "SRCS=\"git::a tbl::u\"\nCHKSUMS=\"x\"".data

/-- Context parsed from `c8Spec`. -/
def ctx1c8 : Ctx := [(chksumsKey, "x".data), (srcsKey, "git::a tbl::u".data)]

/-- Context after the first `update_all_checksum` run on `ctx1c8`. -/
def ctx1c8' : Ctx :=
  [(chksumsKey, "SKIP sha256::x".data), (srcsKey, "git::a tbl::u".data)]

/-- Text produced by the first `get_new_spec` run on `c8Spec`. -/
def c8Out : List Char :=
  "SRCS=\"git::a tbl::u\"\nCHKSUMS=\"SKIP \\\n         sha256::x\"".data

/-- Context parsed back from `c8Out` (the backslash-newline pair of the
continuation is consumed by the parser). -/
def ctx2c8 : Ctx :=
  [(chksumsKey, "SKIP          sha256::x".data),
    (srcsKey, "git::a tbl::u".data)]

/-- The fetch oracle of the C8 witness produces single whitespace-free
tokens. -/
theorem fetch5_wf : ∀ s hsh, fetch5 s = some hsh →
    hsh ≠ [] ∧ ∀ c ∈ hsh, c.isWhitespace = false := by
  intro s hsh h
  simp only [fetch5] at h
  split at h
  · injection h with h2
    subst h2
    exact ⟨by decide, by decide⟩
  · cases h

example : get_new_spec apmlModel pypiW fetch5 c8Spec =
    SpecOutcome.updated c8Out true := by
  decide

example : apmlModel c8Out = Except.ok ctx2c8 := by
  decide

/-- Witness for C8: the concrete pipeline run — `c8Spec` is refreshed to
`c8Out` with changed = true, and a second run on `c8Out` yields
changed = false. -/
theorem c8_idempotent_witness :
    ∃ r2, update_from_str apmlModel pypiW fetch5 c8Out = Except.ok r2 ∧
      r2.changed = false :=
  c8_idempotent apmlModel pypiW fetch5 ctx1c8 ctx1c8' ctx2c8 true c8Out
    fetch5_wf (by decide) (by decide) (by decide) (by decide) (by decide)
    (by decide)

example : splitWS "  a bb  c ".data = ["a".data, "bb".data, "c".data] := by
  decide

example : splitOnSep sep2 "a::::b".data = ["a".data, [], "b".data] := by
  decide

example : splitOnSep sep2 "https://c".data = ["https://c".data] := by
  decide

example : classify (fun _ _ => none) "git::a".data = Except.ok Slot.skip := by
  decide

example :
    classify (fun _ _ => none) "pypi::mypkg".data =
      Except.error UErr.pypiIllegal := by
  decide

example :
    classify (fun p v => some (p ++ v)) "pypi::version=1::mypkg".data =
      Except.ok (Slot.task ("mypkg1".data)) := by
  decide

example : chksumKey "SRCS__amd64".data = "CHKSUMS__amd64".data := by
  decide

example : chksumKey srcsKey = chksumsKey := by
  decide

example :
    update_spec_inner [(chksumsKey, ["sha256::xyz".data])]
      "VER=1\nCHKSUMS=\"sha256::abc \\\n         SKIP\"\nX=2".data =
      some "VER=1\nCHKSUMS=\"sha256::xyz\"\nX=2".data := by
  decide

example :
    apmlModel "SRCS=\"git::a\"\nCHKSUMS=\"SKIP SKIP\"".data =
      Except.ok
        [(chksumsKey, "SKIP SKIP".data), (srcsKey, "git::a".data)] := by
  decide
